import Mathlib

/-!
Verification development for the krlib CLI (src/index.js), a tool that
synchronizes the shared kr-library dependency across monorepo components.
The definitions below are a shallow embedding of the JavaScript source:
pure functions become Lean functions, filesystem state is passed explicitly,
and code paths that throw become `Except`.
-/

set_option autoImplicit false
set_option linter.unusedVariables false

namespace KrLib

/-! ## Semantic versions

The source delegates version comparison to the external `semver` npm package
(an external collaborator per the spec); its behavior on plain
`MAJOR.MINOR.PATCH` strings is embedded here: parsing splits on dots with
numeric components, and `semver.compare` orders by major, then minor, then
patch.  A string that does not parse makes `semver.compare` / `semver.lt`
throw, which is modelled by `Except.error`.
-/

structure SemVer where
  major : Nat
  minor : Nat
  patch : Nat
deriving DecidableEq, Repr

/-- Comparison result of the semver package's compare: numeric compare of
major, then minor, then patch, yielding -1, 0 or 1. -/
def SemVer.cmp (a b : SemVer) : Int :=
  if a.major < b.major then -1
  else if b.major < a.major then 1
  else if a.minor < b.minor then -1
  else if b.minor < a.minor then 1
  else if a.patch < b.patch then -1
  else if b.patch < a.patch then 1
  else 0

/-- Standard semantic-version precedence (spec 4.1: the standard
MAJOR.MINOR.PATCH total order), written as a proposition independent of the
executable comparison. -/
def SemVer.precLt (a b : SemVer) : Prop :=
  a.major < b.major ∨
    (a.major = b.major ∧
      (a.minor < b.minor ∨ (a.minor = b.minor ∧ a.patch < b.patch)))

instance (a b : SemVer) : Decidable (a.precLt b) := by
  unfold SemVer.precLt; infer_instance

/-- Split a character list on the dot character; mirrors how a version
string X.Y.Z decomposes into its dot-separated components. -/
def splitDots : List Char → List (List Char)
  | [] => [[]]
  | c :: rest =>
    if c = '.' then [] :: splitDots rest
    else
      match splitDots rest with
      | [] => [[c]]
      | g :: gs => (c :: g) :: gs

/-- Numeric value of a nonempty all-digit character list, `none` otherwise
(mirrors how semver requires numeric version components). -/
def natOfDigits? (s : List Char) : Option Nat :=
  if s ≠ [] ∧ s.all Char.isDigit then
    some (s.foldl (fun n c => 10 * n + (c.toNat - 48)) 0)
  else none

/-- Parse a MAJOR.MINOR.PATCH string; `none` models the semver package
rejecting the string (an Invalid Version throw at the comparison sites). -/
def parseSemVer (s : String) : Option SemVer :=
  match splitDots s.data with
  | [a, b, c] =>
    match natOfDigits? a, natOfDigits? b, natOfDigits? c with
    | some x, some y, some z => some ⟨x, y, z⟩
    | _, _, _ => none
  | _ => none

/-- semver.compare on strings: throws (error) when either side is not a
valid version, otherwise the -1/0/1 comparison. -/
def semverCompare (a b : String) : Except Unit Int :=
  match parseSemVer a, parseSemVer b with
  | some x, some y => Except.ok (x.cmp y)
  | _, _ => Except.error ()

/-- semver.lt: compare < 0, propagating an Invalid Version throw. -/
def semverLt (a b : String) : Except Unit Bool :=
  match semverCompare a b with
  | Except.ok r => Except.ok (decide (r < 0))
  | Except.error e => Except.error e

/-! ## The #semver: pin extraction

Component._getExpectedVersion (src/index.js:262-275) runs
`npmUrl.match(/#semver:[0-9]*\.[0-9]*\.[0-9]*/g)[0].replace('#semver:','')`.
The regex engine scans the string left to right and at the first position
where the literal `#semver:` matches it greedily takes a digit run, a dot,
a digit run, a dot, and a digit run (digit runs cannot contain the dot, so
no backtracking arises).  `firstSemverPin` embeds that scan and returns the
matched substring.
-/

/-- The characters of the literal "#semver:". -/
def semverTag : List Char := ['#', 's', 'e', 'm', 'v', 'e', 'r', ':']

/-- Boolean test that `pat` is an initial segment of `s`. -/
def startsWithChars : List Char → List Char → Bool
  | [], _ => true
  | _ :: _, [] => false
  | p :: ps, s :: ss => p == s && startsWithChars ps ss

/-- Attempt the regex `#semver:[0-9]*\.[0-9]*\.[0-9]*` at the head of `s`,
returning the matched characters. -/
def tryMatchSemverPin (s : List Char) : Option (List Char) :=
  if startsWithChars semverTag s then
    let r0 := s.drop semverTag.length
    let x := r0.takeWhile Char.isDigit
    match r0.dropWhile Char.isDigit with
    | '.' :: r2 =>
      let y := r2.takeWhile Char.isDigit
      match r2.dropWhile Char.isDigit with
      | '.' :: r4 => some (semverTag ++ x ++ '.' :: (y ++ '.' :: r4.takeWhile Char.isDigit))
      | _ => none
    | _ => none
  else none

/-- First match of the pin regex anywhere in the string, scanning left to
right; `none` models `String.prototype.match` returning null. -/
def firstSemverPin : List Char → Option (List Char)
  | [] => none
  | c :: cs =>
    match tryMatchSemverPin (c :: cs) with
    | some m => some m
    | none => firstSemverPin cs

/-! ## Manifests and components

A component's package.json is modelled by the parts the tool reads and
writes: the `dependencies` object (`none` when the manifest has no such
field) as an ordered association list, and the remaining top-level keys.
The installed kr-library manifest is modelled by its `.version` field,
`none` when the file `node_modules/kr-library/package.json` is absent.
-/

structure Manifest where
  dependencies : Option (List (String × String))
  rest : List (String × String)
deriving DecidableEq

/-- Filesystem view of one component, the inputs of `new Component(...)`
plus the two files it reads (src/index.js:228-242). -/
structure Component where
  componentName : String
  krLibVersion : Option String
  pkg : Manifest
deriving DecidableEq

/-- Component state after `initialize()` (src/index.js:237-242). -/
structure InitComponent where
  componentName : String
  exist : Bool
  currentVersion : String
  expectedVersion : String
deriving DecidableEq, Repr

/-- Component._checkExist (src/index.js:244-246): existsSync on the
installed kr-library manifest. -/
def Component.checkExist (c : Component) : Bool :=
  c.krLibVersion.isSome

/-- Component._getCurrentVersion (src/index.js:248-260): empty string when
the installed manifest is absent, else its version field. -/
def Component.currentVersion (c : Component) : String :=
  match c.krLibVersion with
  | none => ""
  | some v => v

/-- The version extraction of _getExpectedVersion applied to a present
dependency entry: an empty entry is falsy (yields ""), otherwise the first
`#semver:X.Y.Z` match is taken and the `#semver:` part removed; no match
means `match` returned null and indexing it throws. -/
def extractPin (npmUrl : String) : Except Unit String :=
  if npmUrl = "" then Except.ok ""
  else
    match firstSemverPin npmUrl.data with
    | some m => Except.ok (String.mk (m.drop semverTag.length))
    | none => Except.error ()

/-- Component._getExpectedVersion (src/index.js:262-275): reading a missing
dependencies object or a pin without a `#semver:X.Y.Z` token throws
(`Except.error`); a missing or empty `kr-library` entry yields "". -/
def Manifest.getExpectedVersion (pkg : Manifest) : Except Unit String :=
  match pkg.dependencies with
  | none => Except.error ()
  | some deps =>
    match deps.lookup "kr-library" with
    | none => Except.ok ""
    | some npmUrl => extractPin npmUrl

/-- Component.initialize (src/index.js:237-242): compute the exist flag and
the two versions, propagating a throw from _getExpectedVersion. -/
def Component.load (c : Component) : Except Unit InitComponent :=
  match c.pkg.getExpectedVersion with
  | Except.error e => Except.error e
  | Except.ok ev =>
    Except.ok ⟨c.componentName, c.checkExist, c.currentVersion, ev⟩

/-- Component.compareVersion (src/index.js:277-282): the sentinel -2 when
the installed manifest is absent, otherwise semver.compare of the two
stored versions. -/
def InitComponent.compareVersion (c : InitComponent) : Except Unit Int :=
  if c.exist = false then Except.ok (-2)
  else semverCompare c.currentVersion c.expectedVersion

/-- Constant.KR_LIB_NPM_URL (src/index.js:43-45): `git+${url}#semver:`. -/
def krLibNpmUrl (url : String) : String :=
  "git+" ++ url ++ "#semver:"

/-- JavaScript property assignment on the dependencies object: update the
entry in place when the key is present, append it otherwise. -/
def setAssoc : List (String × String) → String → String → List (String × String)
  | [], k, v => [(k, v)]
  | (k0, v0) :: tail, k, v =>
    if k0 = k then (k, v) :: tail else (k0, v0) :: setAssoc tail k v

/-- Component.setVersionAsync (src/index.js:284-288): set
`pkg.dependencies['kr-library']` to the pin for `version` and rewrite the
manifest.  When the manifest has no dependencies object the assignment
throws a TypeError before anything is written. -/
def Manifest.setVersion (pkg : Manifest) (url : String) (version : String) :
    Except Unit Manifest :=
  match pkg.dependencies with
  | none => Except.error ()
  | some deps =>
    Except.ok { pkg with
      dependencies := some (setAssoc deps "kr-library" (krLibNpmUrl url ++ version)) }

/-- Disk effect of setVersionAsync: the rewritten manifest on success, the
unchanged manifest plus a raised-error flag when the assignment throws
(the throw happens before writeFileAsync runs). -/
def setVersionDisk (pkg : Manifest) (url : String) (version : String) :
    Manifest × Bool :=
  match pkg.setVersion url version with
  | Except.ok m => (m, false)
  | Except.error _ => (pkg, true)

/-! ## The component collection and its filters (src/index.js:291-369) -/

/-- The collection built by `new LeyserkidsComponentCollection(root, latest)`:
the initialized components in configuration order plus the latest remote
version string. -/
structure Pkgs where
  components : List InitComponent
  latestVersion : String
deriving DecidableEq

/-- Array.prototype.filter with a predicate that may throw: the first throw
aborts the whole filter (as semver.lt throwing does in the source). -/
def filterExcept {α : Type} (p : α → Except Unit Bool) : List α → Except Unit (List α)
  | [] => Except.ok []
  | c :: cs =>
    match p c with
    | Except.error e => Except.error e
    | Except.ok b =>
      match filterExcept p cs with
      | Except.error e => Except.error e
      | Except.ok tail => Except.ok (if b then c :: tail else tail)

/-- getUnInstalled (src/index.js:302-304): components whose exist flag is
false. -/
def getUnInstalled (components : List InitComponent) : List InitComponent :=
  components.filter fun c => !c.exist

/-- getUnExpected (src/index.js:306-308): installed version semver-lt the
expected version; semver.lt throws on an invalid (for instance empty)
version string. -/
def getUnExpected (components : List InitComponent) : Except Unit (List InitComponent) :=
  filterExcept (fun c => semverLt c.currentVersion c.expectedVersion) components

/-- getUnLatested (src/index.js:310-312): expected version semver-lt the
latest remote version. -/
def getUnLatested (components : List InitComponent) (latestVersion : String) :
    Except Unit (List InitComponent) :=
  filterExcept (fun c => semverLt c.expectedVersion latestVersion) components

/-- checkVersionWithAssert (src/index.js:363-368): on a negative comparison
result log the outdated message and exit with code 1 (`some 1`); otherwise
fall through (`none`).  A throw inside checkVersion propagates. -/
def checkVersionWithAssert (c : InitComponent) : Except Unit (Option Nat) :=
  match c.compareVersion with
  | Except.error e => Except.error e
  | Except.ok r => Except.ok (if r < 0 then some 1 else none)

/-! ## Latest remote version (src/index.js:100-115)

getLatestVersionAsync extracts every `refs/tags/vX.Y.Z` occurrence from the
`git ls-remote` output, strips the prefix, and takes
`semver.maxSatisfying(tags, '*')`: the highest version by semver order.
The model starts from the list of tag names. -/

/-- A tag of the form vX.Y.Z, parsed to its version; `none` for any other
tag name. -/
def parseTagV (s : String) : Option SemVer :=
  match s.data with
  | 'v' :: rest => parseSemVer (String.mk rest)
  | _ => none

/-- One step of the maxSatisfying scan: keep the running maximum,
replacing it exactly when strictly exceeded (maxSV.compare(v) === -1). -/
def maxStep (acc : Option SemVer) (v : SemVer) : Option SemVer :=
  match acc with
  | none => some v
  | some m => if m.cmp v < 0 then some v else some m

/-- semver.maxSatisfying(versions, '*'): the running maximum over the
version list; null (`none`) when the list is empty. -/
def maxSatisfyingStar (versions : List SemVer) : Option SemVer :=
  versions.foldl maxStep none

/-- Utils.getLatestVersionAsync on the extracted tag list. -/
def getLatestVersion (tagNames : List String) : Option SemVer :=
  maxSatisfyingStar (tagNames.filterMap parseTagV)

/-! ## Batch install (src/index.js:177-225, 337-347)

PackageInstaller._installPackage resolves with the subprocess exit code and
never rejects; installSpecificVersionAsync logs success on code 0, logs the
failure otherwise.  installPackagesWithVersionAsync schedules one install
per component (staggered timers) and awaits Promise.all, which rejects only
if some member rejects. -/

inductive InstallReport where
  | success : String → InstallReport
  | failure : String → InstallReport
deriving DecidableEq

def InstallReport.isFailure : InstallReport → Bool
  | success _ => false
  | failure _ => true

/-- installSpecificVersionAsync (src/index.js:217-225) with the subprocess
exit code made explicit: a zero code logs success, any other code logs the
failure; neither path throws. -/
def installSpecificVersion (installPath version : String) (exitCode : Int) :
    Except Unit InstallReport :=
  if exitCode = 0 then
    Except.ok (InstallReport.success
      ("Install kr-library into " ++ installPath ++ " successfully"))
  else
    Except.ok (InstallReport.failure
      ("Failed install kr-library at " ++ installPath ++ " with code: " ++ toString exitCode))

/-- Promise.all over the per-component install promises: collect every
result, rejecting as soon as any member rejects. -/
def collectAll (f : InitComponent → Except Unit InstallReport) :
    List InitComponent → Except Unit (List InstallReport)
  | [] => Except.ok []
  | c :: cs =>
    match f c with
    | Except.error e => Except.error e
    | Except.ok r =>
      match collectAll f cs with
      | Except.error e => Except.error e
      | Except.ok rs => Except.ok (r :: rs)

/-- installPackagesWithVersionAsync (src/index.js:337-347): each component's
install runs with the version chosen by `versionFinder` and finishes with
the exit code given by `exitCode`; the component path is its name here. -/
def installPackagesWithVersion (components : List InitComponent)
    (versionFinder : InitComponent → String) (exitCode : InitComponent → Int) :
    Except Unit (List InstallReport) :=
  collectAll
    (fun c => installSpecificVersion c.componentName (versionFinder c) (exitCode c))
    components

/-! ## Table builder (src/index.js:371-468)

Each row holds four cells (column order 0..3).  _computeLayout unshifts the
header row, folds elementwise maxima of cell lengths starting from
[0,0,0,0], pads every cell to its column width and appends the 4-space
margin after each cell; the table width is the sum of the column widths
plus (4-1) margins, and the separator is that many dashes.  build folds the
rows with no insert before row 0, a newline-separator-newline before row 1
and a plain newline before every later row. -/

def HEADER_NAME : List String := ["Module", "Installed", "Expected", "Latest"]

def margin : String := "    "

structure RowCells where
  componentName : String
  currentVersion : String
  expectedVersion : String
  latestVersion : String
deriving DecidableEq

/-- TableBuilder.readSourceDate (src/index.js:440-467): one row per
component, in collection order, with the shared latest version in the last
column. -/
def readSourceDate (pkgs : Pkgs) : List RowCells :=
  pkgs.components.map fun c =>
    ⟨c.componentName, c.currentVersion, c.expectedVersion, pkgs.latestVersion⟩

/-- The header row unshifted by _computeLayout (src/index.js:398-419). -/
def tableHeaderRow : RowCells :=
  ⟨"Module", "Installed", "Expected", "Latest"⟩

/-- Cell text lengths of a row, in column order. -/
def cellWidths (r : RowCells) : Nat × Nat × Nat × Nat :=
  (r.componentName.length, r.currentVersion.length,
   r.expectedVersion.length, r.latestVersion.length)

/-- One step of the column-width fold (src/index.js:420-426):
`acc[i] = col[i] > acc[i] ? col[i] : acc[i]`. -/
def maxCols (acc w : Nat × Nat × Nat × Nat) : Nat × Nat × Nat × Nat :=
  (if acc.1 < w.1 then w.1 else acc.1,
   if acc.2.1 < w.2.1 then w.2.1 else acc.2.1,
   if acc.2.2.1 < w.2.2.1 then w.2.2.1 else acc.2.2.1,
   if acc.2.2.2 < w.2.2.2 then w.2.2.2 else acc.2.2.2)

/-- Column widths over all rows (header included), starting from
[0, 0, 0, 0]. -/
def computeCols (rows : List RowCells) : Nat × Nat × Nat × Nat :=
  rows.foldl (fun acc r => maxCols acc (cellWidths r)) (0, 0, 0, 0)

/-- String.prototype.padEnd with the space character. -/
def padEnd (s : String) (n : Nat) : String :=
  s ++ String.mk (List.replicate (n - s.length) ' ')

/-- Render one row (src/index.js:427-432, 387-390): every cell padded to
its column width with the margin appended, cells concatenated in column
order. -/
def renderRow (cols : Nat × Nat × Nat × Nat) (r : RowCells) : String :=
  padEnd r.componentName cols.1 ++ margin ++
  padEnd r.currentVersion cols.2.1 ++ margin ++
  padEnd r.expectedVersion cols.2.2.1 ++ margin ++
  padEnd r.latestVersion cols.2.2.2 ++ margin

/-- this.width (src/index.js:433-436): sum of column widths plus
(HEADER_NAME.length - 1) margins. -/
def tableWidth (cols : Nat × Nat × Nat × Nat) : Nat :=
  cols.1 + cols.2.1 + cols.2.2.1 + cols.2.2.2 +
    (HEADER_NAME.length - 1) * margin.length

/-- this.line (src/index.js:437): `tableWidth` dashes. -/
def sepLine (cols : Nat × Nat × Nat × Nat) : String :=
  String.mk (List.replicate (tableWidth cols) '-')

/-- The text inserted before the row at index `idx` in the build fold
(src/index.js:380-386). -/
def rowInsert (idx : Nat) (line : String) : String :=
  if idx = 0 then "" else if idx = 1 then "\n" ++ line ++ "\n" else "\n"

/-- The reduce in TableBuilder.build (src/index.js:378-395). -/
def buildBody (line : String) (rows : List String) : String :=
  (rows.enum).foldl (fun acc p => acc ++ rowInsert p.1 line ++ p.2) ""

/-- The data array after the header unshift. -/
def tableData (pkgs : Pkgs) : List RowCells :=
  tableHeaderRow :: readSourceDate pkgs

/-- The column widths TableBuilder computes for this collection. -/
def tableCols (pkgs : Pkgs) : Nat × Nat × Nat × Nat :=
  computeCols (tableData pkgs)

/-- TableBuilder.build after readSourceDate (src/index.js:378-395). -/
def TableBuilder.build (pkgs : Pkgs) : String :=
  buildBody (sepLine (tableCols pkgs)) ((tableData pkgs).map (renderRow (tableCols pkgs)))

/-- Join row strings with single newlines. -/
def joinLines : List String → String
  | [] => ""
  | [r] => r
  | r :: rs => r ++ "\n" ++ joinLines rs

/-- The row sequence the spec describes: rendered header, separator line,
then one rendered row per component in discovery order. -/
def tableLines (pkgs : Pkgs) : List String :=
  renderRow (tableCols pkgs) tableHeaderRow ::
    sepLine (tableCols pkgs) ::
    (readSourceDate pkgs).map (renderRow (tableCols pkgs))

/-! ## The yes/no prompt (src/index.js:483-499)

Cli.getUserInputAsync builds
`new RegExp('[' + expectedInputs.join('|') + ']', 'g')` — a character class
whose members are the characters of the joined string, so the `'|'`
separator itself belongs to the class.  On each stdin line it collects all
matching characters; the line is accepted exactly when there is one match,
and that matching character is resolved.  Otherwise it warns and keeps
waiting. -/

/-- Array.prototype.join with a separator. -/
def joinWith (sep : String) : List String → String
  | [] => ""
  | [s] => s
  | s :: rest => s ++ sep ++ joinWith sep rest

/-- One stdin data event: `some c` when the line is accepted resolving `c`,
`none` when the prompt warns and repeats. -/
def processInputLine (expectedInputs : List String) (line : String) : Option Char :=
  match line.data.filter (fun c => (joinWith "|" expectedInputs).data.contains c) with
  | [m] => some m
  | _ => none

/-- The promise of getUserInputAsync over a stream of input lines: the
first accepted line's resolved character, with the count of lines consumed;
`none` if every line is rejected. -/
def getUserInput (expectedInputs : List String) : List String → Option Char
  | [] => none
  | l :: ls =>
    match processInputLine expectedInputs l with
    | some c => some c
    | none => getUserInput expectedInputs ls

/-! ## The reconciliation state machine (src/index.js:545-611)

Cli.run shows the table then runs checkFullyInstalled,
checkExpectedVersion and checkLatestVersion in order.  `process.exit`
is modelled by an exit code in the state: once set, the remaining steps do
nothing.  User decisions are the accepted prompt characters, consumed in
order; a throw inside a step is caught by run and becomes exit code 1. -/

structure StepState where
  answers : List Char
  installs : List (String × String)
  visited : List String
  exitCode : Option Nat
deriving DecidableEq, Repr

/-- installExpectAsync (src/index.js:353-355): each component installed at
its own expected version. -/
def installExpect (components : List InitComponent) : List (String × String) :=
  components.map fun c => (c.componentName, c.expectedVersion)

/-- installLatestAsync (src/index.js:349-351): each component installed at
the collection's latest version. -/
def installLatest (latestVersion : String) (components : List InitComponent) :
    List (String × String) :=
  components.map fun c => (c.componentName, latestVersion)

/-- Cli.checkFullyInstalled (src/index.js:545-557): with any uninstalled
component, prompt; on 'y' install all of them at their expected versions
and exit 0; on anything else exit 0 as well. -/
def Cli.checkFullyInstalled (pkgs : Pkgs) (s : StepState) : StepState :=
  if s.exitCode.isSome then s
  else
    let s1 := { s with visited := s.visited ++ ["ReconcileUninstalled"] }
    if (getUnInstalled pkgs.components).isEmpty then s1
    else
      match s1.answers with
      | 'y' :: restAns =>
        { s1 with
          answers := restAns,
          installs := s1.installs ++ installExpect (getUnInstalled pkgs.components),
          exitCode := some 0 }
      | _ :: restAns => { s1 with answers := restAns, exitCode := some 0 }
      | [] => { s1 with exitCode := some 0 }

/-- Cli.checkExpectedVersion (src/index.js:559-569): with any outdated
component, prompt; on 'y' install at expected versions and exit 0; on
anything else fall through.  A semver.lt throw is caught by run → exit 1. -/
def Cli.checkExpectedVersion (pkgs : Pkgs) (s : StepState) : StepState :=
  if s.exitCode.isSome then s
  else
    let s1 := { s with visited := s.visited ++ ["ReconcileExpected"] }
    match getUnExpected pkgs.components with
    | Except.error _ => { s1 with exitCode := some 1 }
    | Except.ok unExpected =>
      if unExpected.isEmpty then s1
      else
        match s1.answers with
        | 'y' :: restAns =>
          { s1 with
            answers := restAns,
            installs := s1.installs ++ installExpect unExpected,
            exitCode := some 0 }
        | _ :: restAns => { s1 with answers := restAns }
        | [] => s1

/-- Cli.checkLatestVersion (src/index.js:571-581): with any component whose
expected version lags the latest, prompt; on 'y' install at the latest
version and exit 0; on anything else fall through. -/
def Cli.checkLatestVersion (pkgs : Pkgs) (s : StepState) : StepState :=
  if s.exitCode.isSome then s
  else
    let s1 := { s with visited := s.visited ++ ["ReconcileLatest"] }
    match getUnLatested pkgs.components pkgs.latestVersion with
    | Except.error _ => { s1 with exitCode := some 1 }
    | Except.ok unLatested =>
      if unLatested.isEmpty then s1
      else
        match s1.answers with
        | 'y' :: restAns =>
          { s1 with
            answers := restAns,
            installs := s1.installs ++ installLatest pkgs.latestVersion unLatested,
            exitCode := some 0 }
        | _ :: restAns => { s1 with answers := restAns }
        | [] => s1

/-- The reconciliation tail of Cli.run (src/index.js:603-605): the three
checks in order, from a fresh state with the given accepted answers. -/
def Cli.runReconciliation (pkgs : Pkgs) (answers : List Char) : StepState :=
  Cli.checkLatestVersion pkgs
    (Cli.checkExpectedVersion pkgs
      (Cli.checkFullyInstalled pkgs
        { answers := answers, installs := [], visited := [], exitCode := none }))

/-! ## Helper lemmas -/

theorem semverCmpSpec (x y : SemVer) :
    (x.cmp y < 0 ↔ x.precLt y) ∧ (x.cmp y = 0 ↔ x = y) ∧ (0 < x.cmp y ↔ y.precLt x) := by
  obtain ⟨a1, b1, c1⟩ := x
  obtain ⟨a2, b2, c2⟩ := y
  simp only [SemVer.cmp, SemVer.precLt, SemVer.mk.injEq]
  split_ifs <;> refine ⟨?_, ?_, ?_⟩ <;> (try simp) <;> omega

theorem precLt_irrefl (x : SemVer) : ¬ x.precLt x := by
  obtain ⟨a, b, c⟩ := x
  simp only [SemVer.precLt]
  omega

theorem precLt_trans {x y z : SemVer} (h1 : x.precLt y) (h2 : y.precLt z) : x.precLt z := by
  obtain ⟨a1, b1, c1⟩ := x
  obtain ⟨a2, b2, c2⟩ := y
  obtain ⟨a3, b3, c3⟩ := z
  simp only [SemVer.precLt] at h1 h2 ⊢
  omega

theorem precLt_total (x y : SemVer) : x.precLt y ∨ x = y ∨ y.precLt x := by
  obtain ⟨a1, b1, c1⟩ := x
  obtain ⟨a2, b2, c2⟩ := y
  simp only [SemVer.precLt, SemVer.mk.injEq]
  omega

theorem digit_ne_dot (c : Char) (h : c.isDigit = true) : c ≠ '.' := by
  intro e
  subst e
  exact absurd h (by decide)

theorem splitDots_no_dot (X : List Char) (hX : ∀ c ∈ X, c ≠ '.') :
    splitDots X = [X] := by
  induction X with
  | nil => rfl
  | cons c cs ih =>
    have hc : c ≠ '.' := hX c (List.mem_cons_self c cs)
    have ht := ih fun d hd => hX d (List.mem_cons_of_mem c hd)
    simp [splitDots, hc, ht]

theorem splitDots_append (X t : List Char) (hX : ∀ c ∈ X, c ≠ '.') :
    splitDots (X ++ '.' :: t) = X :: splitDots t := by
  induction X with
  | nil => simp [splitDots]
  | cons c cs ih =>
    have hc : c ≠ '.' := hX c (List.mem_cons_self c cs)
    have ht := ih fun d hd => hX d (List.mem_cons_of_mem c hd)
    simp [splitDots, hc, ht]

theorem natOfDigits_isSome (X : List Char) (hne : X ≠ [])
    (hd : ∀ c ∈ X, c.isDigit = true) : (natOfDigits? X).isSome = true := by
  unfold natOfDigits?
  rw [if_pos ⟨hne, by simpa [List.all_eq_true] using hd⟩]
  rfl

/-! ## C1: the version comparator -/

/-- C1: the Version Comparator accepts standard MAJOR.MINOR.PATCH strings
(every dot-separated numeric triple parses) and orders them by standard
semantic-version precedence; and a component with an empty/missing
installed version (the never-installed state, where the manifest file is
absent) compares strictly less than any real expected version via the
negative sentinel of Component.compareVersion. -/
theorem C1_version_comparator :
    (∀ (a b : String) (x y : SemVer),
        parseSemVer a = some x → parseSemVer b = some y →
        semverCompare a b = Except.ok (x.cmp y) ∧
          (x.cmp y < 0 ↔ x.precLt y) ∧ (x.cmp y = 0 ↔ x = y) ∧
          (0 < x.cmp y ↔ y.precLt x)) ∧
    (∀ (X Y Z : List Char),
        X ≠ [] → Y ≠ [] → Z ≠ [] →
        (∀ c ∈ X, c.isDigit = true) → (∀ c ∈ Y, c.isDigit = true) →
        (∀ c ∈ Z, c.isDigit = true) →
        (parseSemVer (String.mk (X ++ '.' :: (Y ++ '.' :: Z)))).isSome = true) ∧
    (∀ (c : Component) (ic : InitComponent),
        c.krLibVersion = none → c.load = Except.ok ic →
        ic.compareVersion = Except.ok (-2) ∧ ((-2 : Int) < 0)) := by
  refine ⟨?_, ?_, ?_⟩
  · intro a b x y h1 h2
    exact ⟨by simp [semverCompare, h1, h2], (semverCmpSpec x y).1,
      (semverCmpSpec x y).2.1, (semverCmpSpec x y).2.2⟩
  · intro X Y Z hx hy hz hdx hdy hdz
    have hsX : ∀ c ∈ X, c ≠ '.' := fun c hc => digit_ne_dot c (hdx c hc)
    have hsY : ∀ c ∈ Y, c ≠ '.' := fun c hc => digit_ne_dot c (hdy c hc)
    have hsZ : ∀ c ∈ Z, c ≠ '.' := fun c hc => digit_ne_dot c (hdz c hc)
    obtain ⟨nx, hnx⟩ := Option.isSome_iff_exists.mp (natOfDigits_isSome X hx hdx)
    obtain ⟨ny, hny⟩ := Option.isSome_iff_exists.mp (natOfDigits_isSome Y hy hdy)
    obtain ⟨nz, hnz⟩ := Option.isSome_iff_exists.mp (natOfDigits_isSome Z hz hdz)
    unfold parseSemVer
    rw [show (String.mk (X ++ '.' :: (Y ++ '.' :: Z))).data
        = X ++ '.' :: (Y ++ '.' :: Z) from rfl]
    rw [splitDots_append X _ hsX, splitDots_append Y _ hsY, splitDots_no_dot Z hsZ]
    simp [hnx, hny, hnz]
  · intro c ic hnone hload
    unfold Component.load at hload
    cases hge : c.pkg.getExpectedVersion with
    | error e => rw [hge] at hload; cases hload
    | ok ev =>
      rw [hge] at hload
      cases hload
      refine ⟨?_, by decide⟩
      simp [InitComponent.compareVersion, Component.checkExist, hnone]

theorem C1_witness :
    (semverCompare "1.2.3" "1.10.0" = Except.ok (SemVer.cmp ⟨1, 2, 3⟩ ⟨1, 10, 0⟩) ∧
      (SemVer.cmp ⟨1, 2, 3⟩ ⟨1, 10, 0⟩ < 0 ↔ SemVer.precLt ⟨1, 2, 3⟩ ⟨1, 10, 0⟩) ∧
      (SemVer.cmp ⟨1, 2, 3⟩ ⟨1, 10, 0⟩ = 0 ↔ (⟨1, 2, 3⟩ : SemVer) = ⟨1, 10, 0⟩) ∧
      (0 < SemVer.cmp ⟨1, 2, 3⟩ ⟨1, 10, 0⟩ ↔ SemVer.precLt ⟨1, 10, 0⟩ ⟨1, 2, 3⟩)) ∧
    (parseSemVer (String.mk (['1'] ++ '.' :: (['0'] ++ '.' :: ['4'])))).isSome = true ∧
    (InitComponent.compareVersion ⟨"m", false, "", "1.0.0"⟩ = Except.ok (-2) ∧
      ((-2 : Int) < 0)) :=
  ⟨C1_version_comparator.1 "1.2.3" "1.10.0" ⟨1, 2, 3⟩ ⟨1, 10, 0⟩ (by decide) (by decide),
   C1_version_comparator.2.1 ['1'] ['0'] ['4'] (by decide) (by decide) (by decide)
     (by decide) (by decide) (by decide),
   C1_version_comparator.2.2 ⟨"m", none, ⟨some [("kr-library", "u#semver:1.0.0")], []⟩⟩
     ⟨"m", false, "", "1.0.0"⟩ rfl rfl⟩

/-! ## C3: setVersion round trip

The pin written by setVersionAsync is `git+${url}#semver:` ++ V; re-reading
runs the pin regex over that string.  The hypotheses say the written
version has numeric dot-separated components and that the `#semver:`
literal occurs nowhere in the `git+${url}` part (otherwise the regex would
match earlier), which holds of any ordinary repository URL. -/

theorem startsWithChars_self_append (p r : List Char) :
    startsWithChars p (p ++ r) = true := by
  induction p with
  | nil => rfl
  | cons a ps ih => simp [startsWithChars, ih]

theorem tryMatch_none_of_not_starts {s : List Char}
    (h : startsWithChars semverTag s = false) : tryMatchSemverPin s = none := by
  simp [tryMatchSemverPin, h]

theorem firstPin_skip : ∀ (p s : List Char),
    (∀ i, i < p.length → startsWithChars semverTag ((p ++ s).drop i) = false) →
    firstSemverPin (p ++ s) = firstSemverPin s := by
  intro p
  induction p with
  | nil => intro s h; rfl
  | cons c ps ih =>
    intro s h
    have h0 : startsWithChars semverTag (c :: (ps ++ s)) = false := by
      have hx := h 0 (by simp)
      simpa using hx
    have hrec := ih s (fun i hi => by
      have hx := h (i + 1) (by simp; omega)
      simpa [List.drop_succ_cons] using hx)
    calc firstSemverPin ((c :: ps) ++ s)
        = firstSemverPin (ps ++ s) := by
          simp only [List.cons_append, firstSemverPin, List.append_eq,
            tryMatch_none_of_not_starts h0]
      _ = firstSemverPin s := hrec

theorem takeWhile_stops (p : Char → Bool) (X : List Char) (d : Char) (t : List Char)
    (hX : ∀ c ∈ X, p c = true) (hd : p d = false) :
    (X ++ d :: t).takeWhile p = X ∧ (X ++ d :: t).dropWhile p = d :: t := by
  induction X with
  | nil => simp [List.takeWhile_cons, List.dropWhile_cons, hd]
  | cons c cs ih =>
    have hc := hX c (List.mem_cons_self c cs)
    obtain ⟨ih1, ih2⟩ := ih fun e he => hX e (List.mem_cons_of_mem c he)
    simp [List.takeWhile_cons, List.dropWhile_cons, hc, ih1, ih2]

theorem takeWhile_all (p : Char → Bool) (Z : List Char)
    (hZ : ∀ c ∈ Z, p c = true) : Z.takeWhile p = Z := by
  induction Z with
  | nil => rfl
  | cons c cs ih =>
    have hc := hZ c (List.mem_cons_self c cs)
    simp [List.takeWhile_cons, hc, ih fun e he => hZ e (List.mem_cons_of_mem c he)]

theorem tryMatch_pin (X Y Z : List Char)
    (hX : ∀ c ∈ X, c.isDigit = true) (hY : ∀ c ∈ Y, c.isDigit = true)
    (hZ : ∀ c ∈ Z, c.isDigit = true) :
    tryMatchSemverPin (semverTag ++ (X ++ '.' :: (Y ++ '.' :: Z)))
      = some (semverTag ++ (X ++ '.' :: (Y ++ '.' :: Z))) := by
  obtain ⟨t1, d1⟩ := takeWhile_stops Char.isDigit X '.' (Y ++ '.' :: Z) hX (by decide)
  obtain ⟨t2, d2⟩ := takeWhile_stops Char.isDigit Y '.' Z hY (by decide)
  unfold tryMatchSemverPin
  rw [List.drop_left]
  simp only [startsWithChars_self_append, if_true, t1, d1, t2, d2,
    takeWhile_all Char.isDigit Z hZ]
  simp [semverTag, List.append_assoc]

theorem lookup_setAssoc_self (l : List (String × String)) (k v : String) :
    (setAssoc l k v).lookup k = some v := by
  induction l with
  | nil => simp [setAssoc, List.lookup]
  | cons kv tail ih =>
    obtain ⟨k0, v0⟩ := kv
    by_cases hk : k0 = k
    · simp [setAssoc, hk, List.lookup]
    · have hb : (k == k0) = false := beq_eq_false_iff_ne.mpr (Ne.symm hk)
      simp [setAssoc, hk, List.lookup_cons, hb, ih]

theorem lookup_setAssoc_ne (l : List (String × String)) (k v k' : String)
    (h : k' ≠ k) : (setAssoc l k v).lookup k' = l.lookup k' := by
  have hb : (k' == k) = false := beq_eq_false_iff_ne.mpr h
  induction l with
  | nil => simp [setAssoc, List.lookup, hb]
  | cons kv tail ih =>
    obtain ⟨k0, v0⟩ := kv
    by_cases hk : k0 = k
    · subst hk
      simp [setAssoc, List.lookup_cons, hb]
    · simp [setAssoc, hk, List.lookup_cons, ih]

theorem map_fst_setAssoc (l : List (String × String)) (k v : String)
    (h : (l.lookup k).isSome = true) :
    (setAssoc l k v).map Prod.fst = l.map Prod.fst := by
  induction l with
  | nil => simp [List.lookup] at h
  | cons kv tail ih =>
    obtain ⟨k0, v0⟩ := kv
    by_cases hk : k0 = k
    · subst hk
      simp [setAssoc]
    · have hb : (k == k0) = false := beq_eq_false_iff_ne.mpr (Ne.symm hk)
      have ht : (tail.lookup k).isSome = true := by
        rw [List.lookup_cons, hb] at h
        exact h
      simp [setAssoc, hk, ih ht]

theorem firstPin_of_tryMatch {s m : List Char} (hs : s ≠ [])
    (h : tryMatchSemverPin s = some m) : firstSemverPin s = some m := by
  cases s with
  | nil => cases hs rfl
  | cons c cs => simp [firstSemverPin, h]

theorem getExpectedVersion_of_entry (d r : List (String × String)) (u : String)
    (h : d.lookup "kr-library" = some u) :
    Manifest.getExpectedVersion ⟨some d, r⟩ = extractPin u := by
  simp only [Manifest.getExpectedVersion]
  rw [h]

/-- C3: for every manifest with a kr-library dependency entry and every
version V = X.Y.Z with numeric components, setVersion followed by
re-reading the expected version yields exactly V, and every manifest key
other than the modified dependency entry is unchanged (the other top-level
keys, the dependency key set and order, and every other dependency value). -/
theorem C3_setVersion_round_trip :
    ∀ (url : String) (pkg : Manifest) (deps : List (String × String)) (X Y Z : List Char),
      pkg.dependencies = some deps →
      (deps.lookup "kr-library").isSome = true →
      (∀ c ∈ X, c.isDigit = true) → (∀ c ∈ Y, c.isDigit = true) →
      (∀ c ∈ Z, c.isDigit = true) →
      (∀ i, i < ("git+" ++ url).data.length →
        startsWithChars semverTag
          ((("git+" ++ url).data ++ (semverTag ++ (X ++ '.' :: (Y ++ '.' :: Z)))).drop i)
          = false) →
      ∃ pkg2,
        pkg.setVersion url (String.mk (X ++ '.' :: (Y ++ '.' :: Z))) = Except.ok pkg2 ∧
          pkg2.getExpectedVersion = Except.ok (String.mk (X ++ '.' :: (Y ++ '.' :: Z))) ∧
          pkg2.rest = pkg.rest ∧
          ∃ deps2, pkg2.dependencies = some deps2 ∧
            deps2.map Prod.fst = deps.map Prod.fst ∧
            ∀ k, k ≠ "kr-library" → deps2.lookup k = deps.lookup k := by
  intro url pkg deps X Y Z hdeps hk hX hY hZ hno
  have hset : pkg.setVersion url (String.mk (X ++ '.' :: (Y ++ '.' :: Z))) = Except.ok
      { pkg with dependencies := some (setAssoc deps "kr-library"
          (krLibNpmUrl url ++ String.mk (X ++ '.' :: (Y ++ '.' :: Z)))) } := by
    unfold Manifest.setVersion
    rw [hdeps]
  have hdata : (krLibNpmUrl url ++ String.mk (X ++ '.' :: (Y ++ '.' :: Z))).data
      = ("git+" ++ url).data ++ (semverTag ++ (X ++ '.' :: (Y ++ '.' :: Z))) := by
    unfold krLibNpmUrl
    rw [String.data_append, String.data_append]
    simp [show ("#semver:" : String).data = semverTag from rfl, semverTag,
      List.append_assoc]
  have hne : (krLibNpmUrl url ++ String.mk (X ++ '.' :: (Y ++ '.' :: Z))) ≠ "" := by
    intro h
    have hd := congrArg String.data h
    rw [hdata] at hd
    simp [semverTag] at hd
  have hfirst : firstSemverPin (semverTag ++ (X ++ '.' :: (Y ++ '.' :: Z)))
      = some (semverTag ++ (X ++ '.' :: (Y ++ '.' :: Z))) :=
    firstPin_of_tryMatch (by simp [semverTag]) (tryMatch_pin X Y Z hX hY hZ)
  have hext : extractPin (krLibNpmUrl url ++ String.mk (X ++ '.' :: (Y ++ '.' :: Z)))
      = Except.ok (String.mk (X ++ '.' :: (Y ++ '.' :: Z))) := by
    unfold extractPin
    rw [if_neg hne, hdata]
    rw [firstPin_skip _ _ hno]
    simp only [hfirst]
    rw [List.drop_left]
  refine ⟨_, hset, ?_, rfl,
    setAssoc deps "kr-library"
      (krLibNpmUrl url ++ String.mk (X ++ '.' :: (Y ++ '.' :: Z))),
    rfl, map_fst_setAssoc deps _ _ hk, fun k hkne => lookup_setAssoc_ne deps _ _ k hkne⟩
  rw [getExpectedVersion_of_entry _ _ _ (lookup_setAssoc_self deps _ _)]
  exact hext

theorem C3_witness :
    ∃ pkg2,
      Manifest.setVersion
          ⟨some [("kr-library", "old"), ("left-pad", "1.0.0")], [("name", "web")]⟩
          "https://git.example.com/kr-library.git"
          (String.mk (['1'] ++ '.' :: (['2'] ++ '.' :: ['3']))) = Except.ok pkg2 ∧
        pkg2.getExpectedVersion
          = Except.ok (String.mk (['1'] ++ '.' :: (['2'] ++ '.' :: ['3']))) ∧
        pkg2.rest = Manifest.rest
          ⟨some [("kr-library", "old"), ("left-pad", "1.0.0")], [("name", "web")]⟩ ∧
        ∃ deps2, pkg2.dependencies = some deps2 ∧
          deps2.map Prod.fst = [("kr-library", "old"), ("left-pad", "1.0.0")].map Prod.fst ∧
          ∀ k, k ≠ "kr-library" →
            deps2.lookup k = [("kr-library", "old"), ("left-pad", "1.0.0")].lookup k :=
  C3_setVersion_round_trip "https://git.example.com/kr-library.git"
    ⟨some [("kr-library", "old"), ("left-pad", "1.0.0")], [("name", "web")]⟩
    [("kr-library", "old"), ("left-pad", "1.0.0")] ['1'] ['2'] ['3']
    rfl (by decide) (by decide) (by decide) (by decide) (by decide)

/-! ## C4: the latest remote version is the semver maximum -/

theorem maxStep_fold_spec :
    ∀ (l : List SemVer) (acc : Option SemVer) (v : SemVer),
      l.foldl maxStep acc = some v →
      (acc = some v ∨ v ∈ l) ∧ (∀ w ∈ l, ¬ v.precLt w) ∧
        (∀ m, acc = some m → ¬ v.precLt m) := by
  intro l
  induction l with
  | nil =>
    intro acc v h
    simp only [List.foldl_nil] at h
    refine ⟨Or.inl h, by simp, ?_⟩
    intro m hm
    rw [h] at hm
    cases hm
    exact precLt_irrefl v
  | cons t ts ih =>
    intro acc v h
    rw [List.foldl_cons] at h
    obtain ⟨h1, h2, h3⟩ := ih (maxStep acc t) v h
    refine ⟨?_, ?_, ?_⟩
    · cases h1 with
      | inr hv => exact Or.inr (List.mem_cons_of_mem t hv)
      | inl hs =>
        cases hacc : acc with
        | none =>
          rw [hacc] at hs
          simp only [maxStep] at hs
          cases hs
          exact Or.inr (List.mem_cons_self t ts)
        | some m =>
          rw [hacc] at hs
          simp only [maxStep] at hs
          by_cases hc : m.cmp t < 0
          · rw [if_pos hc] at hs
            cases hs
            exact Or.inr (List.mem_cons_self t ts)
          · rw [if_neg hc] at hs
            cases hs
            exact Or.inl rfl
    · intro w hw
      rcases List.mem_cons.mp hw with hw | hw
      · subst hw
        cases hacc : acc with
        | none => exact h3 w (by rw [hacc]; simp [maxStep])
        | some m =>
          by_cases hc : m.cmp w < 0
          · exact h3 w (by rw [hacc]; simp [maxStep, hc])
          · have hvm : ¬ v.precLt m := h3 m (by rw [hacc]; simp [maxStep, hc])
            have hmt : ¬ m.precLt w := fun hp => hc ((semverCmpSpec m w).1.mpr hp)
            intro hvt
            rcases precLt_total m w with ho | ho | ho
            · exact hmt ho
            · exact hvm (ho ▸ hvt)
            · exact hvm (precLt_trans hvt ho)
      · exact h2 w hw
    · intro m0 hm0
      by_cases hc : m0.cmp t < 0
      · have hvt : ¬ v.precLt t := h3 t (by rw [hm0]; simp [maxStep, hc])
        have hmt : m0.precLt t := (semverCmpSpec m0 t).1.mp hc
        intro hvm0
        exact hvt (precLt_trans hvm0 hmt)
      · exact h3 m0 (by rw [hm0]; simp [maxStep, hc])

/-- C4: the latest remote version resolves to the maximum by
semantic-version order among the tags of the form vX.Y.Z: the result is one
of the parsed tag versions and no parsed tag version strictly exceeds it. -/
theorem C4_latest_version_is_semver_max :
    ∀ (tags : List String) (v : SemVer),
      getLatestVersion tags = some v →
      v ∈ tags.filterMap parseTagV ∧
        ∀ w ∈ tags.filterMap parseTagV, ¬ v.precLt w := by
  intro tags v h
  unfold getLatestVersion maxSatisfyingStar at h
  obtain ⟨h1, h2, h3⟩ := maxStep_fold_spec (tags.filterMap parseTagV) none v h
  refine ⟨?_, h2⟩
  cases h1 with
  | inl hn => cases hn
  | inr hv => exact hv

theorem C4_witness :
    getLatestVersion ["v1.0.0", "v1.2.0", "v1.1.5"] = some ⟨1, 2, 0⟩ ∧
      (⟨1, 2, 0⟩ : SemVer) ∈ ["v1.0.0", "v1.2.0", "v1.1.5"].filterMap parseTagV ∧
      ∀ w ∈ ["v1.0.0", "v1.2.0", "v1.1.5"].filterMap parseTagV,
        ¬ SemVer.precLt ⟨1, 2, 0⟩ w :=
  ⟨by decide,
   C4_latest_version_is_semver_max ["v1.0.0", "v1.2.0", "v1.1.5"] ⟨1, 2, 0⟩ (by decide)⟩

/-! ## C5: a yes in ReconcileUninstalled installs and terminates -/

/-- C5: whenever ReconcileUninstalled finds at least one never-installed
component and the user answers yes, each such component is installed at its
expected version and the process terminates with exit code 0; the
ReconcileExpected and ReconcileLatest steps are never reached. -/
theorem C5_reconcile_uninstalled_terminates :
    ∀ (pkgs : Pkgs) (restAns : List Char),
      getUnInstalled pkgs.components ≠ [] →
      (Cli.runReconciliation pkgs ('y' :: restAns)).installs
          = installExpect (getUnInstalled pkgs.components) ∧
        (Cli.runReconciliation pkgs ('y' :: restAns)).exitCode = some 0 ∧
        "ReconcileExpected" ∉ (Cli.runReconciliation pkgs ('y' :: restAns)).visited ∧
        "ReconcileLatest" ∉ (Cli.runReconciliation pkgs ('y' :: restAns)).visited := by
  intro pkgs restAns h
  have hne : (getUnInstalled pkgs.components).isEmpty = false := by
    cases hq : (getUnInstalled pkgs.components).isEmpty
    · rfl
    · exact absurd (List.isEmpty_iff.mp hq) h
  have hstep : Cli.checkFullyInstalled pkgs ⟨'y' :: restAns, [], [], none⟩
      = ⟨restAns, installExpect (getUnInstalled pkgs.components),
          ["ReconcileUninstalled"], some 0⟩ := by
    simp [Cli.checkFullyInstalled, hne]
  have hrun : Cli.runReconciliation pkgs ('y' :: restAns)
      = ⟨restAns, installExpect (getUnInstalled pkgs.components),
          ["ReconcileUninstalled"], some 0⟩ := by
    unfold Cli.runReconciliation
    rw [hstep]
    simp [Cli.checkExpectedVersion, Cli.checkLatestVersion]
  rw [hrun]
  refine ⟨rfl, rfl, by simp, by simp⟩

theorem C5_witness :
    (Cli.runReconciliation ⟨[⟨"a", false, "", "1.0.0"⟩], "1.2.0"⟩ ['y']).installs
        = installExpect (getUnInstalled (Pkgs.mk [⟨"a", false, "", "1.0.0"⟩] "1.2.0").components) ∧
      (Cli.runReconciliation ⟨[⟨"a", false, "", "1.0.0"⟩], "1.2.0"⟩ ['y']).exitCode = some 0 ∧
      "ReconcileExpected" ∉ (Cli.runReconciliation ⟨[⟨"a", false, "", "1.0.0"⟩], "1.2.0"⟩ ['y']).visited ∧
      "ReconcileLatest" ∉ (Cli.runReconciliation ⟨[⟨"a", false, "", "1.0.0"⟩], "1.2.0"⟩ ['y']).visited :=
  C5_reconcile_uninstalled_terminates ⟨[⟨"a", false, "", "1.0.0"⟩], "1.2.0"⟩ [] (by decide)

/-! ## C9: missing installed manifest yields the -2 sentinel -/

/-- C9: for every component whose installed kr-library manifest file does
not exist, compareVersion returns the sentinel -2 without performing any
semantic-version comparison (no Invalid Version throw even though the
stored current version is the empty, unparsable string), and
checkVersionWithAssert, treating any negative result as outdated, logs the
outdated error and exits with code 1. -/
theorem C9_missing_manifest_sentinel :
    ∀ (c : Component) (ic : InitComponent),
      c.krLibVersion = none → c.load = Except.ok ic →
      ic.compareVersion = Except.ok (-2) ∧
        checkVersionWithAssert ic = Except.ok (some 1) := by
  intro c ic hnone hload
  unfold Component.load at hload
  cases hge : c.pkg.getExpectedVersion with
  | error e => rw [hge] at hload; cases hload
  | ok ev =>
    rw [hge] at hload
    cases hload
    refine ⟨?_, ?_⟩
    · simp [InitComponent.compareVersion, Component.checkExist, hnone]
    · simp [checkVersionWithAssert, InitComponent.compareVersion,
        Component.checkExist, hnone]

theorem C9_witness :
    InitComponent.compareVersion ⟨"b", false, "", "2.0.0"⟩ = Except.ok (-2) ∧
      checkVersionWithAssert ⟨"b", false, "", "2.0.0"⟩ = Except.ok (some 1) :=
  C9_missing_manifest_sentinel
    ⟨"b", none, ⟨some [("kr-library", "g#semver:2.0.0")], []⟩⟩
    ⟨"b", false, "", "2.0.0"⟩ rfl rfl

/-! ## C10: setVersion on a manifest without a dependencies object -/

/-- C10: for every manifest lacking a dependencies field, setVersionAsync
raises an error (the TypeError from assigning a property of undefined) and
writes nothing to disk: the manifest file is unchanged. -/
theorem C10_setVersion_requires_dependencies :
    ∀ (pkg : Manifest) (url version : String),
      pkg.dependencies = none →
      pkg.setVersion url version = Except.error () ∧
        setVersionDisk pkg url version = (pkg, true) := by
  intro pkg url version h
  refine ⟨?_, ?_⟩
  · simp [Manifest.setVersion, h]
  · simp [setVersionDisk, Manifest.setVersion, h]

theorem C10_witness :
    Manifest.setVersion ⟨none, [("name", "web")]⟩ "https://u.git" "1.0.0" = Except.error () ∧
      setVersionDisk ⟨none, [("name", "web")]⟩ "https://u.git" "1.0.0" =
        (⟨none, [("name", "web")]⟩, true) :=
  C10_setVersion_requires_dependencies ⟨none, [("name", "web")]⟩ "https://u.git" "1.0.0" rfl

/-! ## C6: the status table renderer (corrected)

The build fold inserts the separator only before the row at index 1, so
with an empty component list the data array holds the header alone and the
output is a single row with no separator — the claimed "component count
plus 2" rows fails there.  For a non-empty component list every part of
the claim holds. -/

theorem foldl_rows (line : String) :
    ∀ (rest : List String) (n : Nat) (acc : String), 2 ≤ n →
      List.foldl (fun acc p => acc ++ rowInsert p.1 line ++ p.2) acc (List.enumFrom n rest)
        = if rest = [] then acc else acc ++ "\n" ++ joinLines rest := by
  intro rest
  induction rest with
  | nil => intro n acc h; simp
  | cons r rs ih =>
    intro n acc h
    simp only [List.enumFrom, List.foldl_cons]
    rw [ih (n + 1) _ (by omega)]
    have hins : rowInsert n line = "\n" := by
      unfold rowInsert
      rw [if_neg (by omega), if_neg (by omega)]
    rw [hins]
    by_cases hrs : rs = []
    · subst hrs
      simp [joinLines]
    · rw [if_neg hrs, if_neg (by simp)]
      obtain ⟨a, as, rfl⟩ := List.exists_cons_of_ne_nil hrs
      simp [joinLines, String.append_assoc]

theorem buildBody_cons2 (line r0 r1 : String) (rest : List String) :
    buildBody line (r0 :: r1 :: rest) = joinLines (r0 :: line :: r1 :: rest) := by
  unfold buildBody
  simp only [List.enum, List.enumFrom, List.foldl_cons]
  rw [foldl_rows line rest 2 _ (le_refl 2)]
  by_cases h : rest = []
  · subst h
    simp [rowInsert, joinLines, String.append_assoc]
  · rw [if_neg h]
    obtain ⟨a, as, rfl⟩ := List.exists_cons_of_ne_nil h
    simp [rowInsert, joinLines, String.append_assoc]

theorem maxCols_le (acc w : Nat × Nat × Nat × Nat) :
    acc.1 ≤ (maxCols acc w).1 ∧ acc.2.1 ≤ (maxCols acc w).2.1 ∧
      acc.2.2.1 ≤ (maxCols acc w).2.2.1 ∧ acc.2.2.2 ≤ (maxCols acc w).2.2.2 := by
  obtain ⟨a, b, c, d⟩ := acc
  obtain ⟨e, f, g, i⟩ := w
  simp only [maxCols]
  refine ⟨?_, ?_, ?_, ?_⟩ <;> dsimp only <;> split_ifs <;> omega

theorem foldl_maxCols_le :
    ∀ (rows : List RowCells) (acc : Nat × Nat × Nat × Nat),
      acc.1 ≤ (rows.foldl (fun a r => maxCols a (cellWidths r)) acc).1 ∧
        acc.2.1 ≤ (rows.foldl (fun a r => maxCols a (cellWidths r)) acc).2.1 ∧
        acc.2.2.1 ≤ (rows.foldl (fun a r => maxCols a (cellWidths r)) acc).2.2.1 ∧
        acc.2.2.2 ≤ (rows.foldl (fun a r => maxCols a (cellWidths r)) acc).2.2.2 := by
  intro rows
  induction rows with
  | nil => intro acc; exact ⟨le_refl _, le_refl _, le_refl _, le_refl _⟩
  | cons r rs ih =>
    intro acc
    simp only [List.foldl_cons]
    obtain ⟨h1, h2, h3, h4⟩ := ih (maxCols acc (cellWidths r))
    obtain ⟨g1, g2, g3, g4⟩ := maxCols_le acc (cellWidths r)
    exact ⟨le_trans g1 h1, le_trans g2 h2, le_trans g3 h3, le_trans g4 h4⟩

theorem maxCols_zero (w : Nat × Nat × Nat × Nat) : maxCols (0, 0, 0, 0) w = w := by
  obtain ⟨a, b, c, d⟩ := w
  have hz : ∀ n : Nat, (if 0 < n then n else 0) = n := by
    intro n
    split_ifs with hn <;> omega
  simp only [maxCols, hz]

theorem sepLine_length (cols : Nat × Nat × Nat × Nat) :
    (sepLine cols).length
      = cols.1 + cols.2.1 + cols.2.2.1 + cols.2.2.2 + 3 * margin.length := by
  unfold sepLine tableWidth
  rw [show ∀ l : List Char, (String.mk l).length = l.length from fun l => rfl]
  rw [List.length_replicate]
  norm_num [HEADER_NAME]

/-- C6 counterexample: with the empty component list the build output is
the rendered header row alone, not the claimed header-plus-separator rows
(the joined tableLines); the claimed row list does have 0 + 2 rows, and the
rendered output differs from it. -/
theorem C6_counterexample_empty_components :
    TableBuilder.build ⟨[], "1.0.0"⟩ ≠ joinLines (tableLines ⟨[], "1.0.0"⟩) ∧
      (tableLines ⟨[], "1.0.0"⟩).length = 0 + 2 := by
  refine ⟨by decide, rfl⟩

/-- C6 amended: for every non-empty component list, each column width is at
least its header label length, the separator line's length equals the sum
of the column widths plus the three inter-column margins, and the rendered
table is exactly the newline-join of component count + 2 rows: the header
first, the separator second, then the data rows in discovery order.  (For
the empty component list the output is the header row alone.) -/
theorem C6_table_renderer_amended :
    ∀ (pkgs : Pkgs), pkgs.components ≠ [] →
      ("Module".length ≤ (tableCols pkgs).1 ∧
        "Installed".length ≤ (tableCols pkgs).2.1 ∧
        "Expected".length ≤ (tableCols pkgs).2.2.1 ∧
        "Latest".length ≤ (tableCols pkgs).2.2.2) ∧
      (sepLine (tableCols pkgs)).length
          = ((tableCols pkgs).1 + (tableCols pkgs).2.1 + (tableCols pkgs).2.2.1 +
              (tableCols pkgs).2.2.2) + 3 * margin.length ∧
      TableBuilder.build pkgs = joinLines (tableLines pkgs) ∧
      (tableLines pkgs).length = pkgs.components.length + 2 := by
  intro pkgs h
  refine ⟨?_, sepLine_length _, ?_, ?_⟩
  · have hc : tableCols pkgs
        = (readSourceDate pkgs).foldl (fun a r => maxCols a (cellWidths r))
            (cellWidths tableHeaderRow) := by
      unfold tableCols computeCols tableData
      rw [List.foldl_cons, maxCols_zero]
    rw [hc]
    exact foldl_maxCols_le (readSourceDate pkgs) (cellWidths tableHeaderRow)
  · obtain ⟨c, cs, hcs⟩ := List.exists_cons_of_ne_nil h
    unfold TableBuilder.build tableLines tableData readSourceDate
    rw [hcs]
    simp only [List.map_cons]
    exact buildBody_cons2 _ _ _ _
  · unfold tableLines readSourceDate
    simp [List.length_map]

theorem C6_witness :
    TableBuilder.build ⟨[⟨"a", true, "1.0.0", "1.0.0"⟩], "1.2.0"⟩
        = joinLines (tableLines ⟨[⟨"a", true, "1.0.0", "1.0.0"⟩], "1.2.0"⟩) ∧
      (tableLines ⟨[⟨"a", true, "1.0.0", "1.0.0"⟩], "1.2.0"⟩).length = 1 + 2 :=
  ⟨(C6_table_renderer_amended ⟨[⟨"a", true, "1.0.0", "1.0.0"⟩], "1.2.0"⟩ (by decide)).2.2.1,
   (C6_table_renderer_amended ⟨[⟨"a", true, "1.0.0", "1.0.0"⟩], "1.2.0"⟩ (by decide)).2.2.2⟩

/-! ## C7: the uninstalled filter (corrected)

getUnInstalled filters on the exist flag (the manifest file's presence),
not on the installed version string.  The two coincide on the missing-file
side, but a manifest file that exists and declares the empty string as its
version gives a component whose installed version is "" that is NOT in
getUnInstalled — a counterexample to the claim as stated. -/

/-- C7 counterexample: a component whose installed kr-library manifest
exists but declares the empty version string has installed version "" yet
does not appear in getUnInstalled. -/
theorem C7_counterexample_empty_version_with_manifest :
    Component.load ⟨"a", some "", ⟨some [("kr-library", "git+u#semver:1.0.0")], []⟩⟩
        = Except.ok ⟨"a", true, "", "1.0.0"⟩ ∧
      InitComponent.currentVersion ⟨"a", true, "", "1.0.0"⟩ = "" ∧
      (⟨"a", true, "", "1.0.0"⟩ : InitComponent) ∉
        getUnInstalled [⟨"a", true, "", "1.0.0"⟩] :=
  ⟨rfl, rfl, by decide⟩

/-- C7 amended: membership in getUnInstalled is exactly the exist flag
being false (the manifest file absent); every component whose manifest file
is absent has installed version "" and appears in getUnInstalled.  (The
converse direction of the original claim fails only for a manifest that
exists with an empty version string, per the counterexample.) -/
theorem C7_uninstalled_filter_amended :
    (∀ (l : List InitComponent) (c : InitComponent), c ∈ l →
        (c ∈ getUnInstalled l ↔ c.exist = false)) ∧
    (∀ (fc : Component) (ic : InitComponent),
        fc.load = Except.ok ic → fc.krLibVersion = none →
        ic.exist = false ∧ ic.currentVersion = "" ∧ ic ∈ getUnInstalled [ic]) := by
  constructor
  · intro l c hc
    unfold getUnInstalled
    rw [List.mem_filter]
    simp [hc]
  · intro fc ic hload hnone
    unfold Component.load at hload
    cases hge : fc.pkg.getExpectedVersion with
    | error e => rw [hge] at hload; cases hload
    | ok ev =>
      rw [hge] at hload
      cases hload
      refine ⟨?_, ?_, ?_⟩
      · simp [Component.checkExist, hnone]
      · simp [Component.currentVersion, hnone]
      · simp [getUnInstalled, List.mem_filter, Component.checkExist, hnone]

theorem C7_witness :
    ((⟨"u", false, "", "1.0.0"⟩ : InitComponent) ∈
        getUnInstalled [⟨"u", false, "", "1.0.0"⟩]
        ↔ (⟨"u", false, "", "1.0.0"⟩ : InitComponent).exist = false) ∧
      ((⟨"u", false, "", "1.0.0"⟩ : InitComponent).exist = false ∧
        (⟨"u", false, "", "1.0.0"⟩ : InitComponent).currentVersion = "" ∧
        (⟨"u", false, "", "1.0.0"⟩ : InitComponent) ∈
          getUnInstalled [⟨"u", false, "", "1.0.0"⟩]) :=
  ⟨C7_uninstalled_filter_amended.1 [⟨"u", false, "", "1.0.0"⟩]
      ⟨"u", false, "", "1.0.0"⟩ (by decide),
   C7_uninstalled_filter_amended.2
      ⟨"u", none, ⟨some [("kr-library", "w#semver:1.0.0")], []⟩⟩
      ⟨"u", false, "", "1.0.0"⟩ rfl rfl⟩

/-! ## C8: batch install tolerates individual failures -/

/-- C8: for every batch install, the aggregate operation resolves (never
raises) with one report per scheduled component; a non-zero subprocess exit
code yields a logged failure report for exactly that component and does not
prevent the reports of the others. -/
theorem C8_batch_install_failure_tolerant :
    ∀ (components : List InitComponent) (versionFinder : InitComponent → String)
      (exitCode : InitComponent → Int),
      ∃ reports,
        installPackagesWithVersion components versionFinder exitCode
            = Except.ok reports ∧
          reports.length = components.length ∧
          List.Forall₂ (fun c r => InstallReport.isFailure r = true ↔ ¬ exitCode c = 0)
            components reports := by
  intro components vf code
  induction components with
  | nil => exact ⟨[], rfl, rfl, List.Forall₂.nil⟩
  | cons c cs ih =>
    obtain ⟨rs, h1, h2, h3⟩ := ih
    unfold installPackagesWithVersion at h1 ⊢
    by_cases hc : code c = 0
    · have hf : installSpecificVersion c.componentName (vf c) (code c)
          = Except.ok (InstallReport.success
              ("Install kr-library into " ++ c.componentName ++ " successfully")) := by
        simp [installSpecificVersion, hc]
      refine ⟨InstallReport.success
          ("Install kr-library into " ++ c.componentName ++ " successfully") :: rs,
        ?_, by simp [h2], List.Forall₂.cons (by simp [InstallReport.isFailure, hc]) h3⟩
      show (match installSpecificVersion c.componentName (vf c) (code c) with
        | Except.error e => Except.error e
        | Except.ok r =>
          match collectAll (fun c =>
              installSpecificVersion c.componentName (vf c) (code c)) cs with
          | Except.error e => Except.error e
          | Except.ok rs => Except.ok (r :: rs)) = _
      rw [hf, h1]
    · have hf : installSpecificVersion c.componentName (vf c) (code c)
          = Except.ok (InstallReport.failure
              ("Failed install kr-library at " ++ c.componentName ++ " with code: "
                ++ toString (code c))) := by
        simp [installSpecificVersion, hc]
      refine ⟨InstallReport.failure
          ("Failed install kr-library at " ++ c.componentName ++ " with code: "
            ++ toString (code c)) :: rs,
        ?_, by simp [h2], List.Forall₂.cons (by simp [InstallReport.isFailure, hc]) h3⟩
      show (match installSpecificVersion c.componentName (vf c) (code c) with
        | Except.error e => Except.error e
        | Except.ok r =>
          match collectAll (fun c =>
              installSpecificVersion c.componentName (vf c) (code c)) cs with
          | Except.error e => Except.error e
          | Except.ok rs => Except.ok (r :: rs)) = _
      rw [hf, h1]

/-! ## C2: the yes/no prompt (code bug)

The source builds the matcher as `[` + join('|') + `]` so the class is
\x7by, |, n\x7d: a line holding exactly one pipe character is accepted and
resolved as '|', and a line such as "xy" is accepted as 'y'; the spec's
"any other input is rejected" does not hold. -/

/-- C2 (code-bug evidence): the input line "|" is accepted by the y/n
prompt and the resolved character is '|', which is neither 'y' nor 'n';
the line "xy" is also accepted.  The spec-described cases do behave as
stated: exact "y" and "n" are accepted and "x" is rejected. -/
theorem C2_prompt_accepts_pipe_character :
    processInputLine ["y", "n"] "|\n" = some '|' ∧ '|' ≠ 'y' ∧ '|' ≠ 'n' ∧
      processInputLine ["y", "n"] "xy\n" = some 'y' ∧
      processInputLine ["y", "n"] "y\n" = some 'y' ∧
      processInputLine ["y", "n"] "n\n" = some 'n' ∧
      processInputLine ["y", "n"] "x\n" = none := by
  decide

end KrLib
